import Mathlib

/-!
Verification of the tcn_spike repository against its specification.

Shallow embedding of the Python sources:
* Labeler   — src/tcn_spike/labels/labeler.py, generate_entry_exit_labels
* HA        — src/tcn_spike/data/ha.py, compute_heikin_ashi
* HAExt     — src/tcn_spike/features/ha_external.py, rolling slope / angle / acceleration
* Scaler    — src/tcn_spike/preprocessing/normalization.py, StandardScalerTimeSeries
* Windower  — src/tcn_spike/preprocessing/window.py, SequenceWindowGenerator
* TCN       — src/tcn_spike/models/tcn.py, Chomp1d / TemporalBlock / TCNBackbone

Machine floats are modelled as exact rationals (or reals where a square
root or arctangent appears); NaN cells are modelled as Option.none.
-/

set_option maxHeartbeats 1000000

namespace TCNSpike

namespace Labeler

/-- np.max of a nonempty array; 0 as a dummy for the empty list (the code
never takes the maximum of an empty window: it skips such rows). -/
def listMax : List ℚ → ℚ
  | [] => 0
  | a :: t => t.foldl max a

/-- np.min of a nonempty array; dummy 0 on the empty list. -/
def listMin : List ℚ → ℚ
  | [] => 0
  | a :: t => t.foldl min a

/-- j = min(n, i + horizon + 1), the exclusive end of the forward window. -/
def windowEnd (n i horizon : ℕ) : ℕ := min n (i + horizon + 1)

/-- window = values[i+1 : j]. -/
def forwardWindow (close : List ℚ) (horizon i : ℕ) : List ℚ :=
  (close.drop (i + 1)).take (windowEnd close.length i horizon - (i + 1))

/-- rets = window / base - 1.0 with base = values[i]. -/
def forwardRets (close : List ℚ) (horizon i : ℕ) : List ℚ :=
  (forwardWindow close horizon i).map (fun v => v / close.getD i 0 - 1)

/-- The (entry, exit) label pair at row i.  A row whose forward window is
empty (j - i <= 1) keeps forward_max/min = NaN, the comparisons against the
thresholds are then False and fillna(0.0) leaves (0, 0). -/
def labelAt (close : List ℚ) (horizon : ℕ) (eth xth : ℚ) (i : ℕ) : ℚ × ℚ :=
  if windowEnd close.length i horizon ≤ i + 1 then (0, 0)
  else
    ((if eth ≤ listMax (forwardRets close horizon i) then 1 else 0),
     (if listMin (forwardRets close horizon i) ≤ -xth then 1 else 0))

/-- generate_entry_exit_labels: one (entry, exit) row per input row. -/
def generateEntryExitLabels (close : List ℚ) (horizon : ℕ) (eth xth : ℚ) :
    List (ℚ × ℚ) :=
  (List.range close.length).map (labelAt close horizon eth xth)

end Labeler

namespace HA

/-- One raw OHLC bar. -/
structure OHLC where
  op : ℚ
  hi : ℚ
  lo : ℚ
  cl : ℚ
deriving DecidableEq

/-- ha_close = (open + high + low + close) / 4, row by row. -/
def haClose (rows : List OHLC) : List ℚ :=
  rows.map (fun r => (r.op + r.hi + r.lo + r.cl) / 4)

/-- The ha_open recurrence of compute_heikin_ashi:
ha_open[0] = (open[0] + close[0]) / 2 and
ha_open[i] = (ha_open[i-1] + ha_close[i-1]) / 2. -/
def haOpenVal (rows : List OHLC) : ℕ → ℚ
  | 0 => ((rows.headD ⟨0, 0, 0, 0⟩).op + (rows.headD ⟨0, 0, 0, 0⟩).cl) / 2
  | Nat.succ i => (haOpenVal rows i + (haClose rows).getD i 0) / 2

/-- The ha_open column. -/
def haOpen (rows : List OHLC) : List ℚ :=
  (List.range rows.length).map (haOpenVal rows)

/-- ha_high = np.maximum.reduce([high, ha_open, ha_close]). -/
def haHigh (rows : List OHLC) : List ℚ :=
  List.zipWith max (List.zipWith max (rows.map (fun r => r.hi)) (haOpen rows))
    (haClose rows)

/-- ha_low = np.minimum.reduce([low, ha_open, ha_close]). -/
def haLow (rows : List OHLC) : List ℚ :=
  List.zipWith min (List.zipWith min (rows.map (fun r => r.lo)) (haOpen rows))
    (haClose rows)

/-- The 3-row fixture of the specification. -/
def fixtureRows : List OHLC :=
  [⟨10, 12, 9, 11⟩, ⟨11, 13, 10, 12⟩, ⟨12, 14, 11, 13⟩]

end HA

namespace HAExt

/-- slope_calc of _rolling_slope: ordinary least squares slope of the window
values against x = 0 .. w-1. -/
def slopeCalc (w : ℕ) (ys : List ℚ) : ℚ :=
  let xs := (List.range w).map (fun j => (j : ℚ))
  let xm := xs.sum / (w : ℚ)
  let denom := (xs.map (fun a => (a - xm) ^ 2)).sum
  let ym := ys.sum / (ys.length : ℚ)
  let num := ((xs.zip ys).map (fun p => (p.1 - xm) * (p.2 - ym))).sum
  if denom ≠ 0 then num / denom else 0

/-- series.rolling(window, min_periods=window).apply(slope_calc, raw=True):
row i is NaN until a full window values[i-w+1 .. i] is available. -/
def rollingSlope (series : List ℚ) (w : ℕ) : List (Option ℚ) :=
  (List.range series.length).map (fun i =>
    if i + 1 < w then none
    else some (slopeCalc w ((series.drop (i + 1 - w)).take w)))

/-- np.degrees(np.arctan(slope)); NaN cells stay NaN. -/
noncomputable def angleFromSlope (slope : List (Option ℚ)) : List (Option ℝ) :=
  slope.map (Option.map (fun q : ℚ => (180 / Real.pi) * Real.arctan (q : ℝ)))

/-- One cell of pandas Series.diff(): out[i] = s[i] - s[i-1], NaN at i = 0
and wherever either operand is NaN. -/
def diffAt (s : List (Option ℚ)) : ℕ → Option ℚ
  | 0 => none
  | Nat.succ j => (s.getD (j + 1) none).bind (fun a => (s.getD j none).map (fun b => a - b))

/-- pandas Series.diff() over the whole series. -/
def diffSeries (s : List (Option ℚ)) : List (Option ℚ) :=
  (List.range s.length).map (diffAt s)

/-- _rolling_acceleration / the accel column: slope.diff(). -/
def rollingAcceleration (series : List ℚ) (w : ℕ) : List (Option ℚ) :=
  diffSeries (rollingSlope series w)

/-- compute_ha_external_metrics: per window w the triple of columns
(haext_slope_w, haext_angle_w, haext_accel_w) on the ha_close series. -/
noncomputable def computeHaExternalMetrics (haClose : List ℚ) (windows : List ℕ) :
    List (List (Option ℚ) × List (Option ℝ) × List (Option ℚ)) :=
  windows.map (fun w =>
    (rollingSlope haClose w, angleFromSlope (rollingSlope haClose w),
      diffSeries (rollingSlope haClose w)))

end HAExt

namespace Scaler

/-!
StandardScalerTimeSeries.  Feature matrices are lists of rows over ℝ
(the sample standard deviation needs a square root, hence ℝ rather than ℚ);
DataFrame columns are modelled positionally.  The slice argument is the
half-open row range [lo, hi).  pandas produces NaN statistics for fewer than
two training rows; the claims below about the numeric values all assume at
least two training rows, where the float and real computations agree.
-/

/-- The fitted state: mean_ and std_ as in the Python class, None before
fit. -/
structure State where
  mean_ : Option (List ℝ)
  std_ : Option (List ℝ)

/-- The RuntimeError raised by transform before fit. -/
inductive Err where
  | notFitted
deriving DecidableEq

/-- features.iloc[train_slice] for slice(lo, hi). -/
def trainRows (features : List (List ℝ)) (lo hi : ℕ) : List (List ℝ) :=
  (features.drop lo).take (hi - lo)

/-- Column c of a row block. -/
def colVals (rows : List (List ℝ)) (c : ℕ) : List ℝ :=
  rows.map (fun row => row.getD c 0)

/-- Column mean. -/
noncomputable def meanOf (l : List ℝ) : ℝ := l.sum / l.length

/-- pandas sample standard deviation (ddof = 1). -/
noncomputable def sampleStd (l : List ℝ) : ℝ :=
  Real.sqrt ((l.map (fun x => (x - meanOf l) ^ 2)).sum / ((l.length : ℝ) - 1))

/-- std with the zero-std policy std[std == 0.0] = 1.0 applied. -/
noncomputable def adjStd (l : List ℝ) : ℝ :=
  if sampleStd l = 0 then 1 else sampleStd l

/-- fit: compute per-column mean and adjusted std over the training rows;
the previous state is ignored (every field is overwritten). -/
noncomputable def fit (_sc : State) (features : List (List ℝ)) (lo hi : ℕ) : State :=
  { mean_ := some ((List.range (features.headD []).length).map
      (fun c => meanOf (colVals (trainRows features lo hi) c))),
    std_ := some ((List.range (features.headD []).length).map
      (fun c => adjStd (colVals (trainRows features lo hi) c))) }

/-- transform: raises RuntimeError when mean_ or std_ is unset, otherwise
returns (row - mean) / std for every row.  The Python method mutates
nothing, so the embedding returns only the result. -/
noncomputable def transform (sc : State) (features : List (List ℝ)) :
    Except Err (List (List ℝ)) :=
  match sc.mean_, sc.std_ with
  | some m, some s =>
    Except.ok (features.map (fun row =>
      List.zipWith (fun a b => a / b) (List.zipWith (fun x mv => x - mv) row m) s))
  | _, _ => Except.error Err.notFitted

/-- fit_transform: fit, then transform the same features. -/
noncomputable def fitTransform (sc : State) (features : List (List ℝ)) (lo hi : ℕ) :
    State × Except Err (List (List ℝ)) :=
  let sc2 := fit sc features lo hi
  (sc2, transform sc2 features)

end Scaler

namespace Windower

/-- The while loop of SequenceWindowGenerator.generate: collect start
indices start, start+stride, ... while start + seq_len <= num_timesteps.
Fuel makes the recursion total; T+1 steps suffice whenever stride >= 1. -/
def collectStarts (seqLen stride T : ℕ) : ℕ → ℕ → List ℕ
  | 0, _ => []
  | Nat.succ fuel, start =>
    if start + seqLen ≤ T then start :: collectStarts seqLen stride T fuel (start + stride)
    else []

/-- All window start offsets for a series of T timesteps. -/
def windowStarts (seqLen stride T : ℕ) : List ℕ :=
  collectStarts seqLen stride T (T + 1) 0

/-- X[i] = features[s:e].T — one sample as a (features, time) slab. -/
def sampleAt (features : List (List ℚ)) (seqLen start : ℕ) : List (List ℚ) :=
  (List.range (features.headD []).length).map
    (fun f => ((features.drop start).take seqLen).map (fun row => row.getD f 0))

/-- generate: the list of transposed feature slabs and, per window, the
label row at the window's final time index e - 1 = start + seq_len - 1. -/
def generate (seqLen stride : ℕ) (features labels : List (List ℚ)) :
    List (List (List ℚ)) × List (List ℚ) :=
  ((windowStarts seqLen stride features.length).map (sampleAt features seqLen),
   (windowStarts seqLen stride features.length).map
     (fun st => labels.getD (st + seqLen - 1) []))

end Windower

namespace TCN

/-!
Chomp1d / TemporalBlock / TCNBackbone in eval mode (nn.Dropout is the
identity there).  A (batch-free) signal is a function channel → time → ℚ
together with an explicit time length L.  nn.Conv1d pads p zeros on both
sides; Chomp1d(p) drops the trailing p outputs, so the valid output
positions are again 0 .. L-1, and output position t of a chomped
convolution reads padded positions t + j*dilation for j < kernel_size.
-/

/-- Value at position u of the p-zero-padded length-L signal. -/
def padded (p L : ℕ) (x : ℕ → ℕ → ℚ) (c u : ℕ) : ℚ :=
  if p ≤ u ∧ u < p + L then x c (u - p) else 0

/-- ReLU. -/
def relu (q : ℚ) : ℚ := max q 0

/-- Output channel co, position t (t < L after the chomp) of
nn.Conv1d(cin, ·, k, stride=1, padding=p, dilation=d) followed by
Chomp1d(p); bias included. -/
def convChomp (cin k d p : ℕ) (w : ℕ → ℕ → ℕ → ℚ) (b : ℕ → ℚ) (L : ℕ)
    (x : ℕ → ℕ → ℚ) (co t : ℕ) : ℚ :=
  b co + ∑ ci ∈ Finset.range cin, ∑ j ∈ Finset.range k,
    w co ci j * padded p L x ci (t + j * d)

/-- conv → chomp → ReLU (dropout is the identity in eval mode). -/
def convChompRelu (cin k d p : ℕ) (w : ℕ → ℕ → ℕ → ℚ) (b : ℕ → ℚ) (L : ℕ)
    (x : ℕ → ℕ → ℚ) : ℕ → ℕ → ℚ :=
  fun co t => relu (convChomp cin k d p w b L x co t)

/-- The residual 1x1 convolution used when in_channels ≠ out_channels. -/
def downsample (cin : ℕ) (wd : ℕ → ℕ → ℚ) (bd : ℕ → ℚ) (x : ℕ → ℕ → ℚ) :
    ℕ → ℕ → ℚ :=
  fun co t => bd co + ∑ ci ∈ Finset.range cin, wd co ci * x ci t

/-- Parameters of one TemporalBlock. -/
structure BlockParams where
  cin : ℕ
  cout : ℕ
  k : ℕ
  d : ℕ
  p : ℕ
  w1 : ℕ → ℕ → ℕ → ℚ
  b1 : ℕ → ℚ
  w2 : ℕ → ℕ → ℕ → ℚ
  b2 : ℕ → ℚ
  wd : ℕ → ℕ → ℚ
  bd : ℕ → ℚ

/-- TemporalBlock.forward in eval mode: two conv+chomp+ReLU stages, the
residual branch (identity when channel counts match, else the 1x1
downsample), and the final ReLU. -/
def blockOut (bp : BlockParams) (L : ℕ) (x : ℕ → ℕ → ℚ) : ℕ → ℕ → ℚ :=
  fun co t =>
    relu (convChompRelu bp.cout bp.k bp.d bp.p bp.w2 bp.b2 L
        (convChompRelu bp.cin bp.k bp.d bp.p bp.w1 bp.b1 L x) co t +
      (if bp.cin = bp.cout then x co t else downsample bp.cin bp.wd bp.bd x co t))

/-- TCNBackbone.forward: nn.Sequential over the temporal blocks. -/
def backboneOut (bs : List BlockParams) (L : ℕ) (x : ℕ → ℕ → ℚ) : ℕ → ℕ → ℚ :=
  bs.foldl (fun acc bp => blockOut bp L acc) x

/-- Learned weights of one level. -/
structure LevelWeights where
  w1 : ℕ → ℕ → ℕ → ℚ
  b1 : ℕ → ℚ
  w2 : ℕ → ℕ → ℕ → ℚ
  b2 : ℕ → ℚ
  wd : ℕ → ℕ → ℚ
  bd : ℕ → ℚ

/-- TCNBackbone.__init__: level i gets dilation_size = 2^i and padding
(kernel_size - 1) * dilation_size; channel counts chain through
num_channels starting from num_features. -/
def mkBackbone (numFeatures : ℕ) (numChannels : List ℕ) (k : ℕ)
    (wts : ℕ → LevelWeights) : List BlockParams :=
  (List.range numChannels.length).map (fun i =>
    { cin := if i = 0 then numFeatures else numChannels.getD (i - 1) 0,
      cout := numChannels.getD i 0,
      k := k,
      d := 2 ^ i,
      p := (k - 1) * 2 ^ i,
      w1 := (wts i).w1, b1 := (wts i).b1,
      w2 := (wts i).w2, b2 := (wts i).b2,
      wd := (wts i).wd, bd := (wts i).bd })

/-- Two signals agree on every channel at every time position ≤ t. -/
def AgreeUpTo (t : ℕ) (x y : ℕ → ℕ → ℚ) : Prop :=
  ∀ c s, s ≤ t → x c s = y c s

end TCN

/-! Helper lemmas on list indexing, shared by several developments. -/

lemma getD_map_range {α : Type} (f : ℕ → α) {n i : ℕ} (hi : i < n) (d : α) :
    ((List.range n).map f).getD i d = f i := by
  simp [List.getD_eq_getElem?_getD, List.getElem?_map, List.getElem?_range hi]

lemma getD_map {α β : Type} (f : α → β) (l : List α) {i : ℕ} (hi : i < l.length)
    (d : β) (d2 : α) : (l.map f).getD i d = f (l.getD i d2) := by
  rw [List.getD_eq_getElem?_getD, List.getElem?_map,
    List.getElem?_eq_getElem hi, List.getD_eq_getElem l d2 hi]
  rfl

lemma getD_of_length_le {α : Type} (l : List α) {i : ℕ} (h : l.length ≤ i) (d : α) :
    l.getD i d = d := by
  rw [List.getD_eq_getElem?_getD, List.getElem?_eq_none h]
  rfl

lemma getD_take_drop {α : Type} (l : List α) (k m j : ℕ) (hj : j < m) (d : α) :
    ((l.drop k).take m).getD j d = l.getD (k + j) d := by
  rw [List.getD_eq_getElem?_getD, List.getD_eq_getElem?_getD]
  simp only [List.getElem?_take, List.getElem?_drop]
  rw [if_pos hj]

lemma getD_zipWith {α : Type} (f : α → α → α) (a b : List α) {i : ℕ}
    (ha : i < a.length) (hb : i < b.length) (d da db : α) :
    (List.zipWith f a b).getD i d = f (a.getD i da) (b.getD i db) := by
  have hl : i < (List.zipWith f a b).length := by
    rw [List.length_zipWith]; omega
  rw [List.getD_eq_getElem _ _ hl, List.getD_eq_getElem a da ha,
    List.getD_eq_getElem b db hb, List.getElem_zipWith]

/-- Two close series that agree on indices i .. min(n-1, i+horizon) have the
same forward window at index i. -/
lemma forwardWindow_congr (close close2 : List ℚ) (horizon i : ℕ)
    (hlen : close.length = close2.length)
    (hagree : ∀ s, i ≤ s → s ≤ min (close.length - 1) (i + horizon) →
      close.getD s 0 = close2.getD s 0) :
    Labeler.forwardWindow close horizon i = Labeler.forwardWindow close2 horizon i := by
  apply List.ext_getElem?
  intro j
  simp only [Labeler.forwardWindow, Labeler.windowEnd, List.getElem?_take,
    List.getElem?_drop, hlen]
  split
  · rename_i hj
    have hs2 : i + 1 + j < close2.length := by omega
    have hs1 : i + 1 + j < close.length := by omega
    have hv := hagree (i + 1 + j) (by omega) (by omega)
    rw [List.getD_eq_getElem close 0 hs1, List.getD_eq_getElem close2 0 hs2] at hv
    simp only [List.getElem?_eq_getElem hs1, List.getElem?_eq_getElem hs2,
      List.get_eq_getElem, Option.some.injEq]
    exact hv
  · rfl

/-- Counterexample to C2 as stated: the series [100, 103] and [200, 103]
agree on every index in i+1 .. min(n-1, i+horizon) for i = 0, horizon = 1
(namely index 1), yet their (entry, exit) labels at index 0 differ —
the code divides the forward window by the anchor price close[i] itself. -/
theorem labeler_lookahead_counterexample :
    ([100, 103] : List ℚ).length = ([200, 103] : List ℚ).length ∧
    ([100, 103] : List ℚ).getD 1 0 = ([200, 103] : List ℚ).getD 1 0 ∧
    Labeler.generateEntryExitLabels [100, 103] 1 (1/100) (1/100) ≠
      Labeler.generateEntryExitLabels [200, 103] 1 (1/100) (1/100) ∧
    (Labeler.generateEntryExitLabels [100, 103] 1 (1/100) (1/100)).getD 0 (0, 0) = (1, 0) ∧
    (Labeler.generateEntryExitLabels [200, 103] 1 (1/100) (1/100)).getD 0 (0, 0) = (0, 1) := by
  have e1 : Labeler.generateEntryExitLabels [100, 103] 1 (1/100) (1/100) =
      [(1, 0), (0, 0)] := by
    norm_num [Labeler.generateEntryExitLabels, Labeler.labelAt, Labeler.windowEnd,
      Labeler.forwardRets, Labeler.forwardWindow, Labeler.listMax, Labeler.listMin,
      List.range_succ]
  have e2 : Labeler.generateEntryExitLabels [200, 103] 1 (1/100) (1/100) =
      [(0, 1), (0, 0)] := by
    norm_num [Labeler.generateEntryExitLabels, Labeler.labelAt, Labeler.windowEnd,
      Labeler.forwardRets, Labeler.forwardWindow, Labeler.listMax, Labeler.listMin,
      List.range_succ]
  refine ⟨rfl, by norm_num, ?_, ?_, ?_⟩
  · rw [e1, e2]; norm_num
  · rw [e1]; rfl
  · rw [e2]; rfl

/-- Claim C2 (amended): the (entry, exit) label at index i depends only on
the close prices at indices i .. min(n-1, i+horizon).  The anchor price
close[i] itself IS read (it is the denominator of every forward return), but
nothing strictly before index i, and nothing past index n-1. -/
theorem labeler_no_lookahead_amended :
    ∀ close close2 : List ℚ, ∀ horizon : ℕ, ∀ eth xth : ℚ, ∀ i : ℕ,
      close.length = close2.length →
      (∀ s, i ≤ s → s ≤ min (close.length - 1) (i + horizon) →
        close.getD s 0 = close2.getD s 0) →
      Labeler.labelAt close horizon eth xth i =
        Labeler.labelAt close2 horizon eth xth i ∧
      (Labeler.generateEntryExitLabels close horizon eth xth).getD i (0, 0) =
        (Labeler.generateEntryExitLabels close2 horizon eth xth).getD i (0, 0) := by
  intro close close2 horizon eth xth i hlen hagree
  have hwin := forwardWindow_congr close close2 horizon i hlen hagree
  have hlab : Labeler.labelAt close horizon eth xth i =
      Labeler.labelAt close2 horizon eth xth i := by
    simp only [Labeler.labelAt, Labeler.windowEnd, hlen]
    split
    · rfl
    · rename_i hcond
      have hbase : close.getD i 0 = close2.getD i 0 :=
        hagree i le_rfl (by omega)
      simp only [Labeler.forwardRets, hwin, hbase]
  refine ⟨hlab, ?_⟩
  by_cases hin : i < close.length
  · have hin2 : i < close2.length := by omega
    simp only [Labeler.generateEntryExitLabels]
    rw [getD_map_range _ hin, getD_map_range _ hin2]
    exact hlab
  · have h1 : (Labeler.generateEntryExitLabels close horizon eth xth).length ≤ i := by
      simp only [Labeler.generateEntryExitLabels, List.length_map, List.length_range]
      omega
    have h2 : (Labeler.generateEntryExitLabels close2 horizon eth xth).length ≤ i := by
      simp only [Labeler.generateEntryExitLabels, List.length_map, List.length_range]
      omega
    rw [getD_of_length_le _ h1, getD_of_length_le _ h2]

/-- Witness for C2 (amended): perturbing only index 0 of the fixture leaves
the label at index 1 unchanged. -/
theorem labeler_no_lookahead_witness :
    Labeler.labelAt [100, 101, 103, 99, 98] 2 (2/100) (2/100) 1 =
      Labeler.labelAt [999, 101, 103, 99, 98] 2 (2/100) (2/100) 1 :=
  (labeler_no_lookahead_amended [100, 101, 103, 99, 98] [999, 101, 103, 99, 98]
    2 (2/100) (2/100) 1 rfl
    (by
      intro s h1 h2
      simp only [List.length_cons, List.length_nil] at h2
      have h3 : s ≤ 3 := by omega
      interval_cases s <;> rfl)).1

/-- Claim C3 (amended): labeler fixture close = [100, 101, 103, 99, 98],
horizon = 2, thresholds 0.02.  At i = 0 the forward window is [101, 103] with
returns [0.01, 0.03] and label (1, 0); at i = 2 the window is [99, 98] with
returns [-4/103, -5/103] ≈ [-0.0388, -0.0485] (the code divides by the anchor
close[2] = 103; the spec's figures -0.0194 and -0.0291 are wrong) and label
(0, 1); the last index has no forward data and gets (0, 0).  In general an
empty forward window yields (0, 0) and the output has one defined row per
input row. -/
theorem labeler_fixture_and_empty_window :
    Labeler.forwardWindow [100, 101, 103, 99, 98] 2 0 = [101, 103] ∧
    Labeler.forwardRets [100, 101, 103, 99, 98] 2 0 = [1/100, 3/100] ∧
    Labeler.forwardWindow [100, 101, 103, 99, 98] 2 2 = [99, 98] ∧
    Labeler.forwardRets [100, 101, 103, 99, 98] 2 2 = [-4/103, -5/103] ∧
    Labeler.generateEntryExitLabels [100, 101, 103, 99, 98] 2 (2/100) (2/100) =
      [(1, 0), (0, 0), (0, 1), (0, 0), (0, 0)] ∧
    (∀ close : List ℚ, ∀ horizon : ℕ, ∀ eth xth : ℚ, ∀ i : ℕ,
      Labeler.forwardWindow close horizon i = [] →
      Labeler.labelAt close horizon eth xth i = (0, 0)) ∧
    ∀ close : List ℚ, ∀ horizon : ℕ, ∀ eth xth : ℚ,
      (Labeler.generateEntryExitLabels close horizon eth xth).length = close.length := by
  refine ⟨?_, ?_, ?_, ?_, ?_, ?_, ?_⟩
  · norm_num [Labeler.forwardWindow, Labeler.windowEnd]
  · norm_num [Labeler.forwardRets, Labeler.forwardWindow, Labeler.windowEnd]
  · norm_num [Labeler.forwardWindow, Labeler.windowEnd]
  · norm_num [Labeler.forwardRets, Labeler.forwardWindow, Labeler.windowEnd]
  · norm_num [Labeler.generateEntryExitLabels, Labeler.labelAt, Labeler.windowEnd,
      Labeler.forwardRets, Labeler.forwardWindow, Labeler.listMax, Labeler.listMin,
      List.range_succ]
  · intro close horizon eth xth i hw
    simp only [Labeler.labelAt]
    split
    · rfl
    · exfalso
      rename_i hcond
      have hlen := congrArg List.length hw
      simp only [Labeler.forwardWindow, List.length_take, List.length_drop,
        List.length_nil] at hlen
      simp only [Labeler.windowEnd] at hcond hlen
      omega
  · intro close horizon eth xth
    simp [Labeler.generateEntryExitLabels]

/-- Witness for C3: the last fixture index has an empty forward window and
label (0, 0). -/
theorem labeler_fixture_witness :
    Labeler.labelAt [100, 101, 103, 99, 98] 2 (2/100) (2/100) 4 = (0, 0) :=
  labeler_fixture_and_empty_window.2.2.2.2.2.1 [100, 101, 103, 99, 98] 2
    (2/100) (2/100) 4 (by norm_num [Labeler.forwardWindow, Labeler.windowEnd])

/-- Counterexample to C3 as stated: at i = 2 the forward returns computed by
the code are [-4/103, -5/103], and -4/103 ≈ -0.0388 lies more than 0.015
below the -0.0194 the claim states, so the discrepancy is not rounding. -/
theorem labeler_fixture_returns_counterexample :
    Labeler.forwardRets [100, 101, 103, 99, 98] 2 2 ≠ [-194/10000, -291/10000] ∧
    Labeler.forwardRets [100, 101, 103, 99, 98] 2 2 = [-4/103, -5/103] ∧
    (-4/103 : ℚ) < -194/10000 - 15/1000 := by
  have h : Labeler.forwardRets [100, 101, 103, 99, 98] 2 2 = [-4/103, -5/103] := by
    norm_num [Labeler.forwardRets, Labeler.forwardWindow, Labeler.windowEnd]
  refine ⟨?_, h, by norm_num⟩
  rw [h]
  norm_num

/-- Claim C4: Heikin-Ashi definition.  For every OHLC input,
ha_close[i] = (open[i] + high[i] + low[i] + close[i]) / 4 depending on row i
only, ha_open[0] = (open[0] + close[0]) / 2, and for i > 0
ha_open[i] = (ha_open[i-1] + ha_close[i-1]) / 2; the 3-row fixture yields
ha_close = [10.5, 11.5, 12.5] and ha_open = [10.5, 10.5, 11.0]. -/
theorem heikin_ashi_definition :
    (∀ rows : List HA.OHLC, ∀ i, i < rows.length →
      (HA.haClose rows).getD i 0 =
        ((rows.getD i ⟨0, 0, 0, 0⟩).op + (rows.getD i ⟨0, 0, 0, 0⟩).hi +
          (rows.getD i ⟨0, 0, 0, 0⟩).lo + (rows.getD i ⟨0, 0, 0, 0⟩).cl) / 4) ∧
    (∀ rows : List HA.OHLC, 0 < rows.length →
      (HA.haOpen rows).getD 0 0 =
        ((rows.getD 0 ⟨0, 0, 0, 0⟩).op + (rows.getD 0 ⟨0, 0, 0, 0⟩).cl) / 2) ∧
    (∀ rows : List HA.OHLC, ∀ i, i + 1 < rows.length →
      (HA.haOpen rows).getD (i + 1) 0 =
        ((HA.haOpen rows).getD i 0 + (HA.haClose rows).getD i 0) / 2) ∧
    HA.haClose HA.fixtureRows = [21/2, 23/2, 25/2] ∧
    HA.haOpen HA.fixtureRows = [21/2, 21/2, 11] := by
  refine ⟨?_, ?_, ?_, ?_, ?_⟩
  · intro rows i hi
    exact getD_map _ rows hi 0 ⟨0, 0, 0, 0⟩
  · intro rows h0
    simp only [HA.haOpen]
    rw [getD_map_range _ h0]
    cases rows with
    | nil => simp at h0
    | cons a t => rfl
  · intro rows i hi
    simp only [HA.haOpen]
    rw [getD_map_range _ hi, getD_map_range _ (show i < rows.length by omega)]
    rfl
  · norm_num [HA.haClose, HA.fixtureRows]
  · norm_num [HA.haOpen, HA.haOpenVal, HA.haClose, HA.fixtureRows, List.range_succ]

/-- Witness for C4 at the fixture: the ha_open recurrence at i = 2. -/
theorem heikin_ashi_definition_witness :
    (HA.haOpen HA.fixtureRows).getD 2 0 =
      ((HA.haOpen HA.fixtureRows).getD 1 0 + (HA.haClose HA.fixtureRows).getD 1 0) / 2 :=
  heikin_ashi_definition.2.2.1 HA.fixtureRows 1 (by decide)

/-- Claim C10: every Heikin-Ashi row has
ha_high[i] = max(high[i], ha_open[i], ha_close[i]) and
ha_low[i] = min(low[i], ha_open[i], ha_close[i]), so each HA bar encloses its
own open and close even when the raw bar violates the high/low invariant. -/
theorem heikin_ashi_envelope :
    ∀ rows : List HA.OHLC, ∀ i, i < rows.length →
      ((HA.haHigh rows).getD i 0 =
        max (max ((rows.getD i ⟨0, 0, 0, 0⟩).hi) ((HA.haOpen rows).getD i 0))
          ((HA.haClose rows).getD i 0)) ∧
      (rows.getD i ⟨0, 0, 0, 0⟩).hi ≤ (HA.haHigh rows).getD i 0 ∧
      (HA.haOpen rows).getD i 0 ≤ (HA.haHigh rows).getD i 0 ∧
      (HA.haClose rows).getD i 0 ≤ (HA.haHigh rows).getD i 0 ∧
      ((HA.haLow rows).getD i 0 =
        min (min ((rows.getD i ⟨0, 0, 0, 0⟩).lo) ((HA.haOpen rows).getD i 0))
          ((HA.haClose rows).getD i 0)) ∧
      (HA.haLow rows).getD i 0 ≤ (rows.getD i ⟨0, 0, 0, 0⟩).lo ∧
      (HA.haLow rows).getD i 0 ≤ (HA.haOpen rows).getD i 0 ∧
      (HA.haLow rows).getD i 0 ≤ (HA.haClose rows).getD i 0 := by
  intro rows i hi
  have hmaphi : i < (rows.map (fun r => r.hi)).length := by
    simpa using hi
  have hmaplo : i < (rows.map (fun r => r.lo)).length := by
    simpa using hi
  have hopen : i < (HA.haOpen rows).length := by
    simp [HA.haOpen, hi]
  have hclose : i < (HA.haClose rows).length := by
    simp [HA.haClose, hi]
  have hzhi : i < (List.zipWith max (rows.map (fun r => r.hi)) (HA.haOpen rows)).length := by
    rw [List.length_zipWith]; omega
  have hzlo : i < (List.zipWith min (rows.map (fun r => r.lo)) (HA.haOpen rows)).length := by
    rw [List.length_zipWith]; omega
  have e1 : (HA.haHigh rows).getD i 0 =
      max (max ((rows.getD i ⟨0, 0, 0, 0⟩).hi) ((HA.haOpen rows).getD i 0))
        ((HA.haClose rows).getD i 0) := by
    simp only [HA.haHigh]
    rw [getD_zipWith max _ _ hzhi hclose 0 0 0,
      getD_zipWith max _ _ hmaphi hopen 0 0 0,
      getD_map _ rows hi 0 ⟨0, 0, 0, 0⟩]
  have e2 : (HA.haLow rows).getD i 0 =
      min (min ((rows.getD i ⟨0, 0, 0, 0⟩).lo) ((HA.haOpen rows).getD i 0))
        ((HA.haClose rows).getD i 0) := by
    simp only [HA.haLow]
    rw [getD_zipWith min _ _ hzlo hclose 0 0 0,
      getD_zipWith min _ _ hmaplo hopen 0 0 0,
      getD_map _ rows hi 0 ⟨0, 0, 0, 0⟩]
  refine ⟨e1, ?_, ?_, ?_, e2, ?_, ?_, ?_⟩
  · rw [e1]; exact le_max_of_le_left (le_max_left _ _)
  · rw [e1]; exact le_max_of_le_left (le_max_right _ _)
  · rw [e1]; exact le_max_right _ _
  · rw [e2]; exact min_le_of_left_le (min_le_left _ _)
  · rw [e2]; exact min_le_of_left_le (min_le_right _ _)
  · rw [e2]; exact min_le_right _ _

/-- Witness for C10 at the fixture, row 0. -/
theorem heikin_ashi_envelope_witness :
    (12 : ℚ) ≤ (HA.haHigh HA.fixtureRows).getD 0 0 ∧
    (HA.haLow HA.fixtureRows).getD 0 0 ≤ 9 := by
  have h := heikin_ashi_envelope HA.fixtureRows 0 (by decide)
  exact ⟨by simpa [HA.fixtureRows] using h.2.1,
    by simpa [HA.fixtureRows] using h.2.2.2.2.2.1⟩

/-- Counterexample to C5 as stated: for w = 2 on the series [0, 1, 2, 3]
(length 4 > w+1) the claim puts the first defined angle row at index w = 2
and the first defined acceleration row at index w+1 = 3, but the code already
defines the angle at index 1 = w-1 (arctan propagates NaN cells unchanged, it
creates none) and the acceleration at index 2 = w. -/
theorem rolling_metrics_warmup_counterexample :
    2 ≤ 2 ∧ (2 : ℕ) + 1 < ([0, 1, 2, 3] : List ℚ).length ∧
    (1 : ℕ) < 2 ∧
    ((HAExt.angleFromSlope (HAExt.rollingSlope [0, 1, 2, 3] 2)).getD 1 none).isSome = true ∧
    (2 : ℕ) < 2 + 1 ∧
    ((HAExt.rollingAcceleration [0, 1, 2, 3] 2).getD 2 none).isSome = true := by
  refine ⟨le_refl 2, by norm_num, by norm_num, ?_, by norm_num, ?_⟩
  · simp [HAExt.angleFromSlope, HAExt.rollingSlope, List.range_succ]
  · simp [HAExt.rollingAcceleration, HAExt.diffSeries, HAExt.diffAt,
      HAExt.rollingSlope, List.range_succ]

/-- Claim C5 (amended): for every window w ≥ 2 and input longer than w+1,
the rolling slope is undefined for exactly the first w-1 rows, the angle for
exactly the first w-1 rows (arctan maps a defined slope to a defined angle),
and the acceleration (slope.diff()) for exactly the first w rows; all later
rows are defined.  The metrics triple per window is exactly what
compute_ha_external_metrics emits. -/
theorem rolling_metrics_warmup_amended :
    ∀ series : List ℚ, ∀ w : ℕ, 2 ≤ w → w + 1 < series.length →
      (∀ i, i < series.length →
        (((HAExt.rollingSlope series w).getD i none).isSome = true ↔ w - 1 ≤ i)) ∧
      (∀ i, i < series.length →
        (((HAExt.angleFromSlope (HAExt.rollingSlope series w)).getD i none).isSome = true ↔
          w - 1 ≤ i)) ∧
      (∀ i, i < series.length →
        (((HAExt.rollingAcceleration series w).getD i none).isSome = true ↔ w ≤ i)) ∧
      HAExt.computeHaExternalMetrics series [w] =
        [(HAExt.rollingSlope series w,
          HAExt.angleFromSlope (HAExt.rollingSlope series w),
          HAExt.rollingAcceleration series w)] := by
  intro series w hw hlen
  have hslopelen : (HAExt.rollingSlope series w).length = series.length := by
    simp [HAExt.rollingSlope]
  have hslope : ∀ i, i < series.length →
      (((HAExt.rollingSlope series w).getD i none).isSome = true ↔ w - 1 ≤ i) := by
    intro i hi
    simp only [HAExt.rollingSlope]
    rw [getD_map_range _ hi]
    split
    · rename_i hcond
      simp only [Option.isSome_none, Bool.false_eq_true, false_iff]
      omega
    · rename_i hcond
      simp only [Option.isSome_some, true_iff]
      omega
  refine ⟨hslope, ?_, ?_, ?_⟩
  · intro i hi
    have hi2 : i < (HAExt.rollingSlope series w).length := by omega
    have hs := hslope i hi
    simp only [HAExt.angleFromSlope]
    rw [getD_map _ _ hi2 none none]
    rcases hx : (HAExt.rollingSlope series w).getD i none with _ | a
    · rw [hx] at hs
      simpa using hs
    · rw [hx] at hs
      simpa using hs
  · intro i hi
    simp only [HAExt.rollingAcceleration, HAExt.diffSeries]
    rw [hslopelen, getD_map_range _ hi]
    cases i with
    | zero =>
      simp only [HAExt.diffAt, Option.isSome_none, Bool.false_eq_true, false_iff]
      omega
    | succ j =>
      have h1 := hslope (j + 1) hi
      have h2 := hslope j (by omega)
      simp only [HAExt.diffAt]
      rcases hs1 : (HAExt.rollingSlope series w).getD (j + 1) none with _ | a
      · rw [hs1] at h1
        simp only [Option.isSome_none, Bool.false_eq_true, false_iff] at h1
        simp only [Option.none_bind, Option.isSome_none, Bool.false_eq_true, false_iff]
        omega
      · rw [hs1] at h1
        simp only [Option.isSome_some, true_iff] at h1
        rcases hs2 : (HAExt.rollingSlope series w).getD j none with _ | b
        · rw [hs2] at h2
          simp only [Option.isSome_none, Bool.false_eq_true, false_iff] at h2
          simp only [Option.some_bind, Option.map_none', Option.isSome_none,
            Bool.false_eq_true, false_iff]
          omega
        · rw [hs2] at h2
          simp only [Option.isSome_some, true_iff] at h2
          simp only [Option.some_bind, Option.map_some', Option.isSome_some, true_iff]
          omega
  · simp [HAExt.computeHaExternalMetrics, HAExt.rollingAcceleration]

/-- Witness for C5 (amended) at w = 2 on [0, 1, 2, 3]: slope undefined at
row 0 and defined at row 1; acceleration defined at row 2. -/
theorem rolling_metrics_warmup_witness :
    ((HAExt.rollingSlope [0, 1, 2, 3] 2).getD 0 none).isSome = false ∧
    ((HAExt.rollingSlope [0, 1, 2, 3] 2).getD 1 none).isSome = true ∧
    ((HAExt.rollingAcceleration [0, 1, 2, 3] 2).getD 2 none).isSome = true := by
  have h := rolling_metrics_warmup_amended [0, 1, 2, 3] 2 (by norm_num) (by norm_num)
  refine ⟨?_, ?_, ?_⟩
  · have h0 := h.1 0 (by norm_num)
    simpa using h0
  · have h1 := h.1 1 (by norm_num)
    simpa using h1
  · have h2 := h.2.2.1 2 (by norm_num)
    simpa using h2

/-! Scaler lemmas. -/

/-- transform after fit always succeeds, with the closed-form output. -/
lemma transform_fit_eq (sc : Scaler.State) (tf : List (List ℝ)) (lo hi : ℕ)
    (features : List (List ℝ)) :
    Scaler.transform (Scaler.fit sc tf lo hi) features =
      Except.ok (features.map (fun row =>
        List.zipWith (fun a b => a / b)
          (List.zipWith (fun x mv => x - mv) row
            ((List.range (tf.headD []).length).map
              (fun c => Scaler.meanOf (Scaler.colVals (Scaler.trainRows tf lo hi) c))))
          ((List.range (tf.headD []).length).map
            (fun c => Scaler.adjStd (Scaler.colVals (Scaler.trainRows tf lo hi) c))))) :=
  rfl

lemma list_sq_sum_zero (m : ℝ) :
    ∀ l : List ℝ, (l.map (fun x => (x - m) ^ 2)).sum = 0 → ∀ x ∈ l, x = m := by
  intro l
  induction l with
  | nil =>
    intro _ x hx
    simp at hx
  | cons a t ih =>
    intro hsum x hx
    simp only [List.map_cons, List.sum_cons] at hsum
    have h2 : 0 ≤ (t.map (fun x => (x - m) ^ 2)).sum := by
      apply List.sum_nonneg
      intro y hy
      rcases List.mem_map.mp hy with ⟨z, _, rfl⟩
      exact sq_nonneg _
    have h1 : 0 ≤ (a - m) ^ 2 := sq_nonneg _
    rcases List.mem_cons.mp hx with rfl | hxt
    · have ha : (x - m) ^ 2 = 0 := by linarith
      have := pow_eq_zero_iff (n := 2) (by norm_num) |>.mp ha
      linarith [sub_eq_zero.mp this]
    · exact ih (by linarith) x hxt

/-- A column with at least two entries and sample std exactly 0 is constant
at its mean. -/
lemma sampleStd_zero_imp (l : List ℝ) (hl : 2 ≤ l.length)
    (h : Scaler.sampleStd l = 0) : ∀ x ∈ l, x = Scaler.meanOf l := by
  have hden : (0 : ℝ) < (l.length : ℝ) - 1 := by
    have h2 : (2 : ℝ) ≤ (l.length : ℝ) := by exact_mod_cast hl
    linarith
  have hnn : 0 ≤ (l.map (fun x => (x - Scaler.meanOf l) ^ 2)).sum := by
    apply List.sum_nonneg
    intro y hy
    rcases List.mem_map.mp hy with ⟨z, _, rfl⟩
    exact sq_nonneg _
  unfold Scaler.sampleStd at h
  have hle := Real.sqrt_eq_zero'.mp h
  have hq : 0 ≤ (l.map (fun x => (x - Scaler.meanOf l) ^ 2)).sum / ((l.length : ℝ) - 1) :=
    div_nonneg hnn (le_of_lt hden)
  have heq0 : (l.map (fun x => (x - Scaler.meanOf l) ^ 2)).sum / ((l.length : ℝ) - 1) = 0 :=
    le_antisymm hle hq
  have hS : (l.map (fun x => (x - Scaler.meanOf l) ^ 2)).sum = 0 := by
    rcases div_eq_zero_iff.mp heq0 with hS | hbad
    · exact hS
    · exact absurd hbad (by linarith)
  exact list_sq_sum_zero _ l hS

/-- Training row r of the slice [lo, hi) is row r of the full matrix. -/
lemma getD_trainRows (features : List (List ℝ)) (lo hi r : ℕ)
    (h1 : lo ≤ r) (h2 : r < hi) (_h3 : r < features.length) :
    (Scaler.trainRows features lo hi).getD (r - lo) [] = features.getD r [] := by
  rw [List.getD_eq_getElem?_getD, List.getD_eq_getElem?_getD]
  simp only [Scaler.trainRows, List.getElem?_take, List.getElem?_drop]
  rw [if_pos (by omega)]
  have : lo + (r - lo) = r := by omega
  rw [this]

/-- Claim C6: fitting on rows [0, 3) of [[1], [2], [3], [10]] gives mean 2
and (sample) std 1 and transforming the full matrix yields [-1, 0, 1, 8];
and a column whose training std is exactly 0 gets std 1 assigned, so its
training rows transform to exactly 0 (mean subtraction still applied), with
transform succeeding. -/
theorem scaler_fixture_and_zero_std :
    (∀ sc : Scaler.State,
      (Scaler.fit sc [[1], [2], [3], [10]] 0 3).mean_ = some [2] ∧
      (Scaler.fit sc [[1], [2], [3], [10]] 0 3).std_ = some [1] ∧
      Scaler.transform (Scaler.fit sc [[1], [2], [3], [10]] 0 3) [[1], [2], [3], [10]] =
        Except.ok [[-1], [0], [1], [8]]) ∧
    (∀ l : List ℝ, 2 ≤ l.length → Scaler.sampleStd l = 0 → Scaler.adjStd l = 1) ∧
    (∀ sc : Scaler.State, ∀ features : List (List ℝ), ∀ lo hi r c : ℕ,
      lo ≤ r → r < hi → r < features.length → c < (features.headD []).length →
      (∀ row ∈ features, row.length = (features.headD []).length) →
      2 ≤ (Scaler.trainRows features lo hi).length →
      Scaler.sampleStd (Scaler.colVals (Scaler.trainRows features lo hi) c) = 0 →
      ∃ out, Scaler.transform (Scaler.fit sc features lo hi) features = Except.ok out ∧
        (out.getD r []).getD c 0 = 0) := by
  have htr : Scaler.trainRows [[1], [2], [3], [10]] 0 3 = [[1], [2], [3]] := rfl
  have hcol : Scaler.colVals [[(1 : ℝ)], [2], [3]] 0 = [1, 2, 3] := rfl
  have hmean : Scaler.meanOf [(1 : ℝ), 2, 3] = 2 := by
    norm_num [Scaler.meanOf]
  have hstd : Scaler.sampleStd [(1 : ℝ), 2, 3] = 1 := by
    unfold Scaler.sampleStd
    rw [show ((([(1 : ℝ), 2, 3]).map (fun x => (x - Scaler.meanOf [(1 : ℝ), 2, 3]) ^ 2)).sum /
        ((([(1 : ℝ), 2, 3]).length : ℝ) - 1)) = 1 from by simp [hmean]; norm_num]
    exact Real.sqrt_one
  have hadj : Scaler.adjStd [(1 : ℝ), 2, 3] = 1 := by
    unfold Scaler.adjStd
    rw [hstd]
    norm_num
  refine ⟨?_, ?_, ?_⟩
  · intro sc
    refine ⟨?_, ?_, ?_⟩
    · simp [Scaler.fit, htr, hcol, hmean, List.range_succ]
    · simp [Scaler.fit, htr, hcol, hadj, List.range_succ]
    · rw [transform_fit_eq]
      simp only [htr]
      norm_num [List.range_succ, hcol, hmean, hadj]
  · intro l _ h0
    unfold Scaler.adjStd
    rw [if_pos h0]
  · intro sc features lo hi r c hlo hhi hr hc hrect htrlen hstd0
    refine ⟨_, transform_fit_eq sc features lo hi features, ?_⟩
    have hrowmem : features.getD r [] ∈ features := by
      rw [List.getD_eq_getElem _ _ hr]
      exact List.getElem_mem hr
    have hrowlen : (features.getD r []).length = (features.headD []).length :=
      hrect _ hrowmem
    have hmlen : c < ((List.range (features.headD []).length).map
        (fun c => Scaler.meanOf (Scaler.colVals (Scaler.trainRows features lo hi) c))).length := by
      simpa using hc
    have hslen : c < ((List.range (features.headD []).length).map
        (fun c => Scaler.adjStd (Scaler.colVals (Scaler.trainRows features lo hi) c))).length := by
      simpa using hc
    have hsub : c < (List.zipWith (fun x mv => x - mv) (features.getD r [])
        ((List.range (features.headD []).length).map
          (fun c => Scaler.meanOf (Scaler.colVals (Scaler.trainRows features lo hi) c)))).length := by
      rw [List.length_zipWith]
      simp only [List.length_map, List.length_range]
      omega
    rw [getD_map _ features hr [] []]
    rw [getD_zipWith _ _ _ hsub hslen 0 0 0]
    rw [getD_zipWith _ _ _ (show c < (features.getD r []).length from by
      rw [hrowlen]; exact hc) hmlen 0 0 0]
    rw [getD_map_range _ hc, getD_map_range _ hc]
    have hadj1 : Scaler.adjStd (Scaler.colVals (Scaler.trainRows features lo hi) c) = 1 := by
      unfold Scaler.adjStd
      rw [if_pos hstd0]
    have hcollen : (Scaler.colVals (Scaler.trainRows features lo hi) c).length =
        (Scaler.trainRows features lo hi).length := by
      simp [Scaler.colVals]
    have hidx : r - lo < (Scaler.trainRows features lo hi).length := by
      simp only [Scaler.trainRows, List.length_take, List.length_drop]
      omega
    have hidx2 : r - lo < (Scaler.colVals (Scaler.trainRows features lo hi) c).length := by
      rw [hcollen]; exact hidx
    have hx : (Scaler.colVals (Scaler.trainRows features lo hi) c).getD (r - lo) 0 =
        (features.getD r []).getD c 0 := by
      simp only [Scaler.colVals]
      rw [getD_map (fun row => row.getD c 0) _ hidx 0 []]
      rw [getD_trainRows features lo hi r hlo hhi hr]
    have hmem : (features.getD r []).getD c 0 ∈
        Scaler.colVals (Scaler.trainRows features lo hi) c := by
      rw [← hx, List.getD_eq_getElem _ _ hidx2]
      exact List.getElem_mem hidx2
    have hxm : (features.getD r []).getD c 0 =
        Scaler.meanOf (Scaler.colVals (Scaler.trainRows features lo hi) c) :=
      sampleStd_zero_imp _ (by rw [hcollen]; exact htrlen) hstd0 _ hmem
    rw [hxm, hadj1]
    simp

/-- Witness for C6: a constant training column [[5], [5]] gets std 1 and its
training rows transform to exactly 0. -/
theorem scaler_zero_std_witness :
    ∃ out, Scaler.transform (Scaler.fit ⟨none, none⟩ [[5], [5]] 0 2) [[5], [5]] =
        Except.ok out ∧ (out.getD 0 []).getD 0 0 = 0 := by
  have hstd0 : Scaler.sampleStd (Scaler.colVals (Scaler.trainRows [[5], [5]] 0 2) 0) = 0 := by
    have hm : Scaler.meanOf [(5 : ℝ), 5] = 5 := by norm_num [Scaler.meanOf]
    show Scaler.sampleStd [(5 : ℝ), 5] = 0
    unfold Scaler.sampleStd
    rw [show ((([(5 : ℝ), 5]).map (fun x => (x - Scaler.meanOf [(5 : ℝ), 5]) ^ 2)).sum /
        ((([(5 : ℝ), 5]).length : ℝ) - 1)) = 0 from by simp [hm]]
    exact Real.sqrt_zero
  exact scaler_fixture_and_zero_std.2.2 ⟨none, none⟩ [[5], [5]] 0 2 0 0
    (le_refl 0) (by norm_num) (by norm_num) (by norm_num)
    (by
      intro row hrow
      rcases List.mem_cons.mp hrow with rfl | hrow2
      · rfl
      · rcases List.mem_cons.mp hrow2 with rfl | hrow3
        · rfl
        · simp at hrow3)
    (by norm_num [Scaler.trainRows]) hstd0

/-- Claim C8: transform raises the not-fitted state error exactly when
mean_ or std_ is unset (i.e. fit has not run), and after any fit, transform
of any feature matrix succeeds.  transform itself never writes any state:
in the embedding it returns only the transformed matrix, mirroring the
Python method body, which assigns no attribute. -/
theorem scaler_transform_state_error :
    (∀ sc : Scaler.State, ∀ features : List (List ℝ),
      ((∃ e, Scaler.transform sc features = Except.error e) ↔
        (sc.mean_ = none ∨ sc.std_ = none))) ∧
    (∀ sc : Scaler.State, ∀ tf : List (List ℝ), ∀ lo hi : ℕ,
      ∀ features : List (List ℝ),
      ∃ out, Scaler.transform (Scaler.fit sc tf lo hi) features = Except.ok out) := by
  constructor
  · intro sc features
    rcases sc with ⟨m, s⟩
    rcases m with _ | m <;> rcases s with _ | s <;>
      simp [Scaler.transform] <;>
      exact ⟨Scaler.Err.notFitted, trivial⟩
  · intro sc tf lo hi features
    exact ⟨_, transform_fit_eq sc tf lo hi features⟩

/-- Claim C9: fit_transform equals fit followed by transform, including when
the separate fit runs on a fresh (or any other) scaler state: fit overwrites
the whole state deterministically, so outputs and fitted parameters agree. -/
theorem scaler_fit_transform_roundtrip :
    ∀ sc sc2 : Scaler.State, ∀ features : List (List ℝ), ∀ lo hi : ℕ,
      Scaler.fitTransform sc features lo hi =
        (Scaler.fit sc2 features lo hi,
          Scaler.transform (Scaler.fit sc2 features lo hi) features) ∧
      (Scaler.fitTransform sc features lo hi).2 =
        Scaler.transform (Scaler.fit sc2 features lo hi) features ∧
      (Scaler.fitTransform sc features lo hi).1 = Scaler.fit sc2 features lo hi :=
  fun _ _ _ _ _ => ⟨rfl, rfl, rfl⟩

/-! Windower lemmas. -/

lemma range_map_mul_shift (a d n : ℕ) :
    a :: (List.range n).map (fun q => a + d + q * d) =
      (List.range (n + 1)).map (fun q => a + q * d) := by
  rw [List.range_succ_eq_map, List.map_cons, List.map_map, List.cons.injEq]
  refine ⟨by omega, ?_⟩
  apply List.map_congr_left
  intro q _
  simp only [Function.comp_apply, Nat.succ_eq_add_one]
  ring

/-- Closed form of the start-collecting loop, for positive stride and
enough fuel. -/
lemma collectStarts_closed (seqLen stride T : ℕ) (hd : 1 ≤ stride) :
    ∀ fuel start : ℕ, T + 1 - start ≤ fuel →
      Windower.collectStarts seqLen stride T fuel start =
        (List.range (if start + seqLen ≤ T then (T - seqLen - start) / stride + 1 else 0)).map
          (fun q => start + q * stride) := by
  intro fuel
  induction fuel with
  | zero =>
    intro start h
    have hc : ¬ (start + seqLen ≤ T) := by omega
    simp [Windower.collectStarts, hc]
  | succ fuel ih =>
    intro start h
    by_cases hcond : start + seqLen ≤ T
    · simp only [Windower.collectStarts, if_pos hcond]
      rw [ih (start + stride) (by omega)]
      by_cases hcond2 : start + stride + seqLen ≤ T
      · rw [if_pos hcond2]
        have hsub : T - seqLen - start - stride = T - seqLen - (start + stride) := by
          omega
        have hdiv : (T - seqLen - start) / stride =
            (T - seqLen - (start + stride)) / stride + 1 := by
          rw [Nat.div_eq (T - seqLen - start) stride, if_pos ⟨hd, by omega⟩, hsub]
        rw [hdiv]
        exact range_map_mul_shift start stride ((T - seqLen - (start + stride)) / stride + 1)
      · rw [if_neg hcond2]
        have hz : (T - seqLen - start) / stride = 0 := Nat.div_eq_of_lt (by omega)
        rw [hz]
        simp [List.range_succ]
    · simp only [Windower.collectStarts, if_neg hcond]
      simp

/-- Claim C7: for stride >= 1 and seq_len >= 1, generate emits exactly the
windows with start offsets 0, stride, 2*stride, ... while
start + seq_len <= T, with (T - seq_len) / stride + 1 of them when
seq_len <= T and none at all when seq_len > T; each sample is the feature
slab transposed to (features, time) with the label row at index
start + seq_len - 1; T = 5, seq_len = 3, stride = 1 gives starts [0, 1, 2]. -/
theorem window_generation :
    (∀ seqLen stride T : ℕ, 1 ≤ seqLen → 1 ≤ stride →
      (∀ m : ℕ, m ∈ Windower.windowStarts seqLen stride T ↔
        stride ∣ m ∧ m + seqLen ≤ T) ∧
      (Windower.windowStarts seqLen stride T).length =
        (if seqLen ≤ T then (T - seqLen) / stride + 1 else 0) ∧
      (T < seqLen → Windower.windowStarts seqLen stride T = [])) ∧
    (∀ features : List (List ℚ), ∀ seqLen st f j : ℕ,
      f < (features.headD []).length → j < seqLen →
      st + seqLen ≤ features.length →
      ((Windower.sampleAt features seqLen st).getD f []).getD j 0 =
        (features.getD (st + j) []).getD f 0) ∧
    (∀ features labels : List (List ℚ), ∀ seqLen stride : ℕ,
      (Windower.generate seqLen stride features labels).1 =
        (Windower.windowStarts seqLen stride features.length).map
          (Windower.sampleAt features seqLen) ∧
      (Windower.generate seqLen stride features labels).2 =
        (Windower.windowStarts seqLen stride features.length).map
          (fun st => labels.getD (st + seqLen - 1) [])) ∧
    Windower.windowStarts 3 1 5 = [0, 1, 2] := by
  refine ⟨?_, ?_, ?_, ?_⟩
  · intro seqLen stride T hs hd
    have hclosed := collectStarts_closed seqLen stride T hd (T + 1) 0 (by omega)
    have hstarts : Windower.windowStarts seqLen stride T =
        (List.range (if seqLen ≤ T then (T - seqLen) / stride + 1 else 0)).map
          (fun q => q * stride) := by
      rw [Windower.windowStarts, hclosed]
      simp
    refine ⟨?_, ?_, ?_⟩
    · intro m
      rw [hstarts]
      constructor
      · intro hm
        rcases List.mem_map.mp hm with ⟨q, hq, rfl⟩
        rw [List.mem_range] at hq
        by_cases hT : seqLen ≤ T
        · rw [if_pos hT] at hq
          have hq2 : q ≤ (T - seqLen) / stride := by omega
          have := (Nat.le_div_iff_mul_le hd).mp hq2
          exact ⟨dvd_mul_left stride q, by omega⟩
        · rw [if_neg hT] at hq
          omega
      · rintro ⟨⟨c, rfl⟩, hle⟩
        have hT : seqLen ≤ T := by omega
        apply List.mem_map.mpr
        refine ⟨c, ?_, by ring⟩
        rw [List.mem_range, if_pos hT]
        have hc : c * stride ≤ T - seqLen := by
          rw [Nat.mul_comm]
          omega
        have := (Nat.le_div_iff_mul_le hd).mpr hc
        omega
    · rw [hstarts]
      simp
    · intro hTs
      rw [hstarts, if_neg (by omega)]
      simp
  · intro features seqLen st f j hf hj hst
    simp only [Windower.sampleAt]
    rw [getD_map_range _ hf]
    have hslab : j < (((features.drop st).take seqLen).map
        (fun row => row.getD f 0)).length := by
      simp only [List.length_map, List.length_take, List.length_drop]
      omega
    have hslab2 : j < ((features.drop st).take seqLen).length := by
      simp only [List.length_take, List.length_drop]
      omega
    rw [getD_map _ _ hslab2 0 []]
    rw [getD_take_drop features st seqLen j hj []]
  · intro features labels seqLen stride
    exact ⟨rfl, rfl⟩
  · rfl

/-- Witness for C7: the fixture membership at offset 2 and one sample entry
of a concrete 5-by-2 feature matrix. -/
theorem window_generation_witness :
    (2 ∈ Windower.windowStarts 3 1 5 ↔ 1 ∣ 2 ∧ 2 + 3 ≤ 5) ∧
    ((Windower.sampleAt [[1, 2], [3, 4], [5, 6], [7, 8], [9, 10]] 3 1).getD 1 []).getD 2 0 =
      (([[1, 2], [3, 4], [5, 6], [7, 8], [9, 10]] : List (List ℚ)).getD 3 []).getD 1 0 := by
  constructor
  · exact (window_generation.1 3 1 5 (by norm_num) (by norm_num)).1 2
  · exact window_generation.2.1 [[1, 2], [3, 4], [5, 6], [7, 8], [9, 10]] 3 1 1 2
      (by norm_num) (by norm_num) (by norm_num)

/-! TCN causality lemmas. -/

/-- Padded positions up to t + p only read original positions up to t. -/
lemma padded_congr (p L : ℕ) (x y : ℕ → ℕ → ℚ) (t : ℕ)
    (h : TCN.AgreeUpTo t x y) (c u : ℕ) (hu : u ≤ t + p) :
    TCN.padded p L x c u = TCN.padded p L y c u := by
  unfold TCN.padded
  split
  · rename_i hcond
    exact h c (u - p) (by omega)
  · rfl

/-- A chomped convolution with padding at least (k-1)*d is causal: its
output at any position s ≤ t depends only on input positions ≤ t. -/
lemma convChomp_causal (cin k d p : ℕ) (hp : (k - 1) * d ≤ p)
    (w : ℕ → ℕ → ℕ → ℚ) (b : ℕ → ℚ) (L : ℕ) (x y : ℕ → ℕ → ℚ) (t : ℕ)
    (h : TCN.AgreeUpTo t x y) (co s : ℕ) (hs : s ≤ t) :
    TCN.convChomp cin k d p w b L x co s = TCN.convChomp cin k d p w b L y co s := by
  unfold TCN.convChomp
  congr 1
  apply Finset.sum_congr rfl
  intro ci _
  apply Finset.sum_congr rfl
  intro j hj
  congr 1
  apply padded_congr p L x y t h
  rw [Finset.mem_range] at hj
  have hjd : j * d ≤ (k - 1) * d := Nat.mul_le_mul_right d (by omega)
  omega

lemma convChompRelu_causal (cin k d p : ℕ) (hp : (k - 1) * d ≤ p)
    (w : ℕ → ℕ → ℕ → ℚ) (b : ℕ → ℚ) (L : ℕ) (x y : ℕ → ℕ → ℚ) (t : ℕ)
    (h : TCN.AgreeUpTo t x y) :
    TCN.AgreeUpTo t (TCN.convChompRelu cin k d p w b L x)
      (TCN.convChompRelu cin k d p w b L y) := by
  intro co s hs
  unfold TCN.convChompRelu
  rw [convChomp_causal cin k d p hp w b L x y t h co s hs]

/-- One temporal block preserves agreement up to t. -/
lemma blockOut_causal (bp : TCN.BlockParams) (hp : (bp.k - 1) * bp.d ≤ bp.p)
    (L : ℕ) (x y : ℕ → ℕ → ℚ) (t : ℕ) (h : TCN.AgreeUpTo t x y) :
    TCN.AgreeUpTo t (TCN.blockOut bp L x) (TCN.blockOut bp L y) := by
  intro co s hs
  have h1 := convChompRelu_causal bp.cin bp.k bp.d bp.p hp bp.w1 bp.b1 L x y t h
  have h2 := convChompRelu_causal bp.cout bp.k bp.d bp.p hp bp.w2 bp.b2 L _ _ t h1
  have hres : (if bp.cin = bp.cout then x co s
        else TCN.downsample bp.cin bp.wd bp.bd x co s) =
      (if bp.cin = bp.cout then y co s
        else TCN.downsample bp.cin bp.wd bp.bd y co s) := by
    split
    · exact h co s hs
    · unfold TCN.downsample
      congr 1
      apply Finset.sum_congr rfl
      intro ci _
      rw [h ci s hs]
  unfold TCN.blockOut
  rw [h2 co s hs, hres]

/-- The whole backbone preserves agreement up to t, provided every block's
padding is at least (k-1)*dilation. -/
lemma backboneOut_causal (bs : List TCN.BlockParams)
    (hp : ∀ bp ∈ bs, (bp.k - 1) * bp.d ≤ bp.p) (L t : ℕ) :
    ∀ x y : ℕ → ℕ → ℚ, TCN.AgreeUpTo t x y →
      TCN.AgreeUpTo t (TCN.backboneOut bs L x) (TCN.backboneOut bs L y) := by
  induction bs with
  | nil =>
    intro x y h
    exact h
  | cons bp rest ih =>
    intro x y h
    have h1 := blockOut_causal bp (hp bp (List.mem_cons_self bp rest)) L x y t h
    exact ih (fun bp2 hbp2 => hp bp2 (List.mem_cons_of_mem _ hbp2))
      (TCN.blockOut bp L x) (TCN.blockOut bp L y) h1

/-- Every block built by TCNBackbone has padding = (kernel_size-1)*dilation. -/
lemma mkBackbone_padding (numFeatures : ℕ) (numChannels : List ℕ) (k : ℕ)
    (wts : ℕ → TCN.LevelWeights) :
    ∀ bp ∈ TCN.mkBackbone numFeatures numChannels k wts,
      (bp.k - 1) * bp.d ≤ bp.p := by
  intro bp hbp
  rcases List.mem_map.mp hbp with ⟨i, _, rfl⟩
  exact le_refl _

/-- Claim C1: TCN causality.  For every backbone built by TCNBackbone (any
channel list, kernel size and weights; eval mode, so dropout is the
identity), if two inputs agree on all channels at all timesteps ≤ t, the
backbone outputs agree at all timesteps ≤ t — the output at t depends only
on inputs ≤ t.  In particular two inputs that differ only at the last
timestep L-1 give identical outputs at every earlier timestep; since the
statement holds for every prefix of the channel list, every intermediate
block activation agrees as well. -/
theorem tcn_causality :
    ∀ numFeatures : ℕ, ∀ numChannels : List ℕ, ∀ k : ℕ,
    ∀ wts : ℕ → TCN.LevelWeights, ∀ L : ℕ, ∀ x y : ℕ → ℕ → ℚ,
      (∀ t : ℕ, (∀ c s, s ≤ t → x c s = y c s) →
        ∀ c s, s ≤ t →
          TCN.backboneOut (TCN.mkBackbone numFeatures numChannels k wts) L x c s =
            TCN.backboneOut (TCN.mkBackbone numFeatures numChannels k wts) L y c s) ∧
      ((∀ c s, s + 1 < L → x c s = y c s) →
        ∀ c s, s + 1 < L →
          TCN.backboneOut (TCN.mkBackbone numFeatures numChannels k wts) L x c s =
            TCN.backboneOut (TCN.mkBackbone numFeatures numChannels k wts) L y c s) := by
  intro numFeatures numChannels k wts L x y
  have hmain : ∀ t : ℕ, (∀ c s, s ≤ t → x c s = y c s) →
      ∀ c s, s ≤ t →
        TCN.backboneOut (TCN.mkBackbone numFeatures numChannels k wts) L x c s =
          TCN.backboneOut (TCN.mkBackbone numFeatures numChannels k wts) L y c s := by
    intro t h c s hs
    exact backboneOut_causal (TCN.mkBackbone numFeatures numChannels k wts)
      (mkBackbone_padding numFeatures numChannels k wts) L t x y h c s hs
  refine ⟨hmain, ?_⟩
  intro h c s hs
  exact hmain (L - 2) (fun c2 s2 hs2 => h c2 s2 (by omega)) c s (by omega)

/-- Witness for C1: a concrete 1-level backbone (k = 2, unit weights) on two
length-3 inputs that differ only at the last timestep agrees at timestep 1. -/
theorem tcn_causality_witness :
    TCN.backboneOut
        (TCN.mkBackbone 1 [1] 2 (fun _ =>
          ⟨fun _ _ _ => 1, fun _ => 0, fun _ _ _ => 1, fun _ => 0,
            fun _ _ => 1, fun _ => 0⟩)) 3
        (fun _ s => if s = 2 then 5 else 1) 0 1 =
      TCN.backboneOut
        (TCN.mkBackbone 1 [1] 2 (fun _ =>
          ⟨fun _ _ _ => 1, fun _ => 0, fun _ _ _ => 1, fun _ => 0,
            fun _ _ => 1, fun _ => 0⟩)) 3
        (fun _ s => if s = 2 then 7 else 1) 0 1 :=
  (tcn_causality 1 [1] 2
    (fun _ => ⟨fun _ _ _ => 1, fun _ => 0, fun _ _ _ => 1, fun _ => 0,
      fun _ _ => 1, fun _ => 0⟩) 3
    (fun _ s => if s = 2 then 5 else 1) (fun _ s => if s = 2 then 7 else 1)).1 1
    (by
      intro c s hs
      have hne : s ≠ 2 := by omega
      simp [hne]) 0 1 (le_refl 1)

end TCNSpike
